import Mathlib

/-!
Verification of the sweets-shop inventory API.

The development shallowly embeds the controllers and middleware of the
repository:

* the sweet controller (view, search, add, update, remove, purchase,
  restock) acting on a list of documents standing for the Mongo
  collection;
* the auth middleware (token extraction and verification, admin check);
* the auth controller (register, login);
* the router wiring middleware chains to handlers.

Document ids are natural numbers, prices are rationals, quantities are
integers (so that nonnegativity is a real statement).  Fallible store
operations return an explicit result value together with the resulting
store.  The JWT library is abstracted as a verification function
`String → Option Identity`.
-/

namespace Kada

/-- An inventory item: one document of the Sweet collection.  Fields as in
the data model: name, category, price (numeric), quantity (integer). -/
structure Sweet where
  id : Nat
  name : String
  category : String
  price : ℚ
  quantity : Int
  deriving Repr, DecidableEq

/-- `Sweet.findById(id)`: the first document of the collection whose id
matches. -/
def findById (store : List Sweet) (id : Nat) : Option Sweet :=
  store.find? (fun s => s.id == id)

/-- `sweet.save()` on a fetched, mutated document: the collection with the
document of that id replaced by the new version. -/
def saveById (store : List Sweet) (s : Sweet) : List Sweet :=
  store.map (fun t => if t.id == s.id then s else t)

/-- Outcome of `purchaseSweets`: 404 not-found, 400 out-of-stock, or 200
with the new stock level. -/
inductive PurchaseRes where
  | notFound
  | outOfStock
  | ok (currentStock : Int)
  deriving Repr, DecidableEq

/-- `purchaseSweets` (sweet controller): look the sweet up by id; 404 if
absent; 400 if `quantity < 1`; otherwise decrement quantity by 1, save,
and answer with the new quantity as `currentStock`. -/
def purchaseSweets (store : List Sweet) (id : Nat) : PurchaseRes × List Sweet :=
  match findById store id with
  | none => (.notFound, store)
  | some s =>
    if s.quantity < 1 then (.outOfStock, store)
    else
      let s2 : Sweet := { s with quantity := s.quantity - 1 }
      (.ok s2.quantity, saveById store s2)

/-- Outcome of `restockSweets`: 400 invalid amount, 404 not-found, or 200
with the new stock level. -/
inductive RestockRes where
  | invalidAmount
  | notFound
  | ok (currentStock : Int)
  deriving Repr, DecidableEq

/-- `restockSweets` (sweet controller): 400 when the body's amount is
missing, zero or negative (the code's `!amount || amount <= 0` guard, run
before the lookup); then 404 when the id resolves to nothing; otherwise the
quantity grows by the amount, the document is saved and the new quantity is
answered as `currentStock`. -/
def restockSweets (store : List Sweet) (id : Nat) (amount : Option Int) :
    RestockRes × List Sweet :=
  match amount with
  | none => (.invalidAmount, store)
  | some a =>
    if a ≤ 0 then (.invalidAmount, store)
    else
      match findById store id with
      | none => (.notFound, store)
      | some s =>
        let s2 : Sweet := { s with quantity := s.quantity + a }
        (.ok s2.quantity, saveById store s2)

/-- A partial-update request body: each schema field optionally present. -/
structure SweetPatch where
  name : Option String := none
  category : Option String := none
  price : Option ℚ := none
  quantity : Option Int := none
  deriving Repr, DecidableEq

/-- Mongo partial update of one document: exactly the fields present in the
body are written, the rest keep their values; the id is immutable. -/
def applyPatch (p : SweetPatch) (s : Sweet) : Sweet :=
  { s with
    name := p.name.getD s.name
    category := p.category.getD s.category
    price := p.price.getD s.price
    quantity := p.quantity.getD s.quantity }

/-- Outcome of `updateSweets`: 404 not-found or 200 with the post-update
document. -/
inductive UpdateRes where
  | notFound
  | ok (sweet : Sweet)
  deriving Repr, DecidableEq

/-- `updateSweets` (sweet controller): `findByIdAndUpdate(id, body,
new:true)` — 404 when the id resolves to nothing, otherwise the patched
document is stored and the post-update record is returned.  The code passes
no `runValidators` option, so no schema validation runs on this path. -/
def updateSweets (store : List Sweet) (id : Nat) (p : SweetPatch) :
    UpdateRes × List Sweet :=
  match findById store id with
  | none => (.notFound, store)
  | some s =>
    let s2 := applyPatch p s
    (.ok s2, saveById store s2)

/-- Outcome of `removeSweets`: 404 not-found or 200 with a confirmation. -/
inductive RemoveRes where
  | notFound
  | ok
  deriving Repr, DecidableEq

/-- `removeSweets` (sweet controller): `findByIdAndDelete` — 404 when the
id resolves to nothing, otherwise the document is deleted. -/
def removeSweets (store : List Sweet) (id : Nat) : RemoveRes × List Sweet :=
  match findById store id with
  | none => (.notFound, store)
  | some _ => (.ok, store.eraseP (fun t => t.id == id))

/-- A creation request body: each schema field optionally present. -/
structure SweetBody where
  name : Option String := none
  category : Option String := none
  price : Option ℚ := none
  quantity : Option Int := none
  deriving Repr, DecidableEq

/-- A fresh document id: one larger than every id in the collection. -/
def freshId (store : List Sweet) : Nat :=
  store.foldr (fun s m => max s.id m) 0 + 1

/-- Outcome of `addSweets`: 400 validation error or 201 with the created
document. -/
inductive AddRes where
  | validationError
  | ok (sweet : Sweet)
  deriving Repr, DecidableEq

/-- `addSweets` (sweet controller): builds a document from the request body
and saves it; a schema validation failure is a 400.  The validation itself
is modelled from the spec: the Sweet schema file (models/Sweet.js) is not
under src/, and the spec requires name, category and price, price ≥ 0, and
quantity ≥ 0 with default 0. -/
def addSweets (store : List Sweet) (b : SweetBody) : AddRes × List Sweet :=
  match b.name, b.category, b.price with
  | some n, some c, some p =>
    if p < 0 then (.validationError, store)
    else
      match b.quantity with
      | some q =>
        if q < 0 then (.validationError, store)
        else
          let s : Sweet := ⟨freshId store, n, c, p, q⟩
          (.ok s, store ++ [s])
      | none =>
        let s : Sweet := ⟨freshId store, n, c, p, 0⟩
        (.ok s, store ++ [s])
  | _, _, _ => (.validationError, store)

/-- `viewSweets` (sweet controller): every document of the collection, in
the store's natural order. -/
def viewSweets (store : List Sweet) : List Sweet := store

/-- A small concrete collection used by witnesses. -/
def demoStore : List Sweet :=
  [⟨1, "Fudge", "Choco", 5, 10⟩, ⟨2, "Bar", "Choco", 3, 0⟩]

/-- `k` repeated purchase calls against the same id, keeping only the
store. -/
def purchaseIter (id : Nat) (store : List Sweet) : Nat → List Sweet
  | 0 => store
  | k + 1 => (purchaseSweets (purchaseIter id store k) id).2

/-! ### Operation sequences and the data-model invariant -/

/-- One inventory request, as dispatched by the router to the sweet
controller. -/
inductive Op where
  | add (b : SweetBody)
  | update (id : Nat) (p : SweetPatch)
  | remove (id : Nat)
  | purchase (id : Nat)
  | restock (id : Nat) (amount : Option Int)
  deriving Repr, DecidableEq

/-- The collection after one request, the response discarded. -/
def applyOp (store : List Sweet) : Op → List Sweet
  | .add b => (addSweets store b).2
  | .update id p => (updateSweets store id p).2
  | .remove id => (removeSweets store id).2
  | .purchase id => (purchaseSweets store id).2
  | .restock id a => (restockSweets store id a).2

/-- A request whose input is well-formed in the sense of the data model:
any field an update writes must be nonnegative (the update path runs no
schema validation, so this is a property of the request, not something the
code checks).  Every other request is unconditionally well-formed: add
validates inside the controller and purchase and restock guard their own
arithmetic. -/
def validOp : Op → Bool
  | .update _ p =>
      (match p.price with | none => true | some v => 0 ≤ v) &&
      (match p.quantity with | none => true | some v => 0 ≤ v)
  | _ => true

/-- The data-model invariant: every stored item has nonnegative quantity
and nonnegative price. -/
def storeOK (store : List Sweet) : Prop :=
  ∀ s ∈ store, 0 ≤ s.quantity ∧ 0 ≤ s.price

instance (store : List Sweet) : Decidable (storeOK store) :=
  List.decidableBAll _ store

/-! ### Auth middleware -/

/-- The identity a verified token decodes to and the middleware attaches to
the request. -/
structure Identity where
  id : Nat
  role : String
  deriving Repr, DecidableEq

/-- JS `String.prototype.replace` with a plain-string pattern and an empty
replacement: only the first occurrence of the pattern is removed. -/
def removeFirst (pat : List Char) : List Char → List Char
  | [] => []
  | c :: cs =>
    if pat.isPrefixOf (c :: cs) then (c :: cs).drop pat.length
    else c :: removeFirst pat cs

/-- Occurrence of a plain-string pattern somewhere in the text, mirroring
the positions `removeFirst` inspects. -/
def occursIn (pat : List Char) : List Char → Bool
  | [] => pat.isEmpty
  | c :: cs => pat.isPrefixOf (c :: cs) || occursIn pat cs

/-- Token extraction in the `authenticate` middleware:
`req.header('Authorization')?.replace('Bearer ', '')`. -/
def stripBearer (h : String) : String :=
  ⟨removeFirst "Bearer ".data h.data⟩

/-- Outcome of the `authenticate` middleware: 401 when no token is present,
400 when verification of a present token throws, else the decoded identity
is attached and the chain continues. -/
inductive AuthRes where
  | noToken
  | invalid
  | ok (u : Identity)
  deriving Repr, DecidableEq

/-- `authenticate` (auth middleware): extract the token from the
Authorization header; the falsy check `!token` answers 401 when the header
is absent or the extracted token is empty; otherwise `jwt.verify` —
abstracted as the `verify` argument — either yields the decoded identity,
or throws, in which case the middleware answers 400 Invalid token. -/
def authenticate (verify : String → Option Identity) (header : Option String) :
    AuthRes :=
  match header with
  | none => .noToken
  | some h =>
    let token := stripBearer h
    if token = "" then .noToken
    else
      match verify token with
      | some u => .ok u
      | none => .invalid

/-- The HTTP status an `authenticate` failure writes; a success writes none
and calls the next handler. -/
def authFailStatus : AuthRes → Option Nat
  | .noToken => some 401
  | .invalid => some 400
  | .ok _ => none

/-- `isAdmin` (auth middleware): the chain continues only when the attached
identity's role equals "admin"; otherwise 403. -/
def isAdminCheck (u : Identity) : Bool := u.role == "admin"

/-! ### Auth controller: register -/

/-- A credential record: one document of the User collection. -/
structure User where
  username : String
  email : String
  password : String
  role : String
  deriving Repr, DecidableEq

/-- Outcome of `register`: 400 conflict or 201 created. -/
inductive RegisterRes where
  | conflict
  | created
  deriving Repr, DecidableEq

/-- `register` (auth controller): when a user with the request's email
exists the call is a 400 conflict and nothing is saved; otherwise a new
user is persisted.  Password hashing and the role default live in the User
schema and are modelled from the spec: models/User.js is not under src/,
and the spec stores only an irreversible hash (`hash` abstracts bcrypt)
and defaults the role to "user". -/
def register (hash : String → String) (users : List User)
    (username email password : String) (role : Option String) :
    RegisterRes × List User :=
  match users.find? (fun u => u.email == email) with
  | some _ => (.conflict, users)
  | none =>
    (.created, users ++ [⟨username, email, hash password, role.getD "user"⟩])

/-! ### Search -/

/-- A token of the regular-expression fragment the search evaluates: a
literal character or the any-character metacharacter. -/
inductive RTok where
  | lit (c : Char)
  | dot
  deriving Repr, DecidableEq

/-- The metacharacters of the PCRE-style syntax Mongo `$regex` uses.  A
pattern avoiding all of them is matched purely literally. -/
def regexSpecials : List Char :=
  ['.', '^', '$', '*', '+', '?', '(', ')', '[', ']', '\x7b', '\x7d', '|', '\\']

/-- Parse a search-name string into the fragment: '.' is the wildcard,
every other character a literal.  This models (from the documented Mongo
`$regex` semantics — the engine is external to the repository) exactly the
fragment the theorems below quantify over: patterns using metacharacters
other than '.' are outside it and appear in no statement. -/
def parsePattern (p : List Char) : List RTok :=
  p.map (fun c => if c = '.' then RTok.dot else RTok.lit c)

/-- Case-insensitive single-token match (the controller passes option
'i'). -/
def tokMatch : RTok → Char → Bool
  | .lit c, d => c.toLower == d.toLower
  | .dot, _ => true

/-- The pattern matches at the head of the text. -/
def matchHere : List RTok → List Char → Bool
  | [], _ => true
  | _ :: _, [] => false
  | t :: ts, c :: cs => tokMatch t c && matchHere ts cs

/-- Unanchored match: the pattern matches at some position of the text. -/
def regexSearch (pat : List RTok) : List Char → Bool
  | [] => matchHere pat []
  | c :: cs => matchHere pat (c :: cs) || regexSearch pat cs

/-- Case-insensitive prefix comparison of plain character lists. -/
def isPrefixCI : List Char → List Char → Bool
  | [], _ => true
  | _ :: _, [] => false
  | c :: cs, d :: ds => (c.toLower == d.toLower) && isPrefixCI cs ds

/-- The spec's search notion: the needle occurs in the haystack as a
case-insensitive literal substring. -/
def containsCI (pat : List Char) : List Char → Bool
  | [] => pat.isEmpty
  | c :: cs => isPrefixCI pat (c :: cs) || containsCI pat cs

/-- The parsed search query parameters. -/
structure SearchQuery where
  name : Option String := none
  category : Option String := none
  minPrice : Option ℚ := none
  maxPrice : Option ℚ := none
  deriving Repr, DecidableEq

/-- The Mongo filter `searchSweets` builds: a present, nonempty name (JS
truthiness of the query parameter) becomes a case-insensitive `$regex`
condition on the name; a present, nonempty category an exact match; present
price bounds inclusive comparisons; conditions combine conjunctively. -/
def matchesQuery (q : SearchQuery) (s : Sweet) : Bool :=
  (match q.name with
   | none => true
   | some n =>
     if n = "" then true else regexSearch (parsePattern n.data) s.name.data) &&
  (match q.category with
   | none => true
   | some c => if c = "" then true else s.category == c) &&
  (match q.minPrice with
   | none => true
   | some m => m ≤ s.price) &&
  (match q.maxPrice with
   | none => true
   | some m => s.price ≤ m)

/-- `searchSweets` (sweet controller): the documents matching the built
filter. -/
def searchSweets (store : List Sweet) (q : SearchQuery) : List Sweet :=
  store.filter (matchesQuery q)

/-! ### Router -/

/-- A routed request to the sweets API with its parsed inputs. -/
inductive Route where
  | list
  | search (q : SearchQuery)
  | add (b : SweetBody)
  | update (id : Nat) (p : SweetPatch)
  | remove (id : Nat)
  | purchase (id : Nat)
  | restock (id : Nat) (amount : Option Int)

/-- Which middleware chains carry `isAdmin` in routes/sweets.js: add,
update, remove and restock do; list, search and purchase run only
`authenticate`. -/
def routeRequiresAdmin : Route → Bool
  | .add _ => true
  | .update _ _ => true
  | .remove _ => true
  | .restock _ _ => true
  | .list => false
  | .search _ => false
  | .purchase _ => false

/-- The controller a route dispatches to, with the HTTP status it
answers. -/
def dispatch (route : Route) (store : List Sweet) : Nat × List Sweet :=
  match route with
  | .list => (200, store)
  | .search _ => (200, store)
  | .add b =>
    match addSweets store b with
    | (.ok _, st) => (201, st)
    | (.validationError, st) => (400, st)
  | .update id p =>
    match updateSweets store id p with
    | (.ok _, st) => (200, st)
    | (.notFound, st) => (404, st)
  | .remove id =>
    match removeSweets store id with
    | (.ok, st) => (200, st)
    | (.notFound, st) => (404, st)
  | .purchase id =>
    match purchaseSweets store id with
    | (.ok _, st) => (200, st)
    | (.outOfStock, st) => (400, st)
    | (.notFound, st) => (404, st)
  | .restock id a =>
    match restockSweets store id a with
    | (.ok _, st) => (200, st)
    | (.invalidAmount, st) => (400, st)
    | (.notFound, st) => (404, st)

/-- A full request through the router: `authenticate`, then `isAdmin` where
wired, then the controller; the pair is the HTTP status and the resulting
store. -/
def handleRequest (verify : String → Option Identity) (header : Option String)
    (route : Route) (store : List Sweet) : Nat × List Sweet :=
  match authenticate verify header with
  | .noToken => (401, store)
  | .invalid => (400, store)
  | .ok u =>
    if routeRequiresAdmin route && !(isAdminCheck u) then (403, store)
    else dispatch route store

/-- A small concrete credential store used by witnesses. -/
def demoUsers : List User :=
  [⟨"alice", "a@x.com", "h1", "admin"⟩]

/-- A small concrete collection used by the search witnesses. -/
def demoSearchStore : List Sweet :=
  [⟨1, "Chocolate Fudge", "Chocolate", 6, 10⟩,
   ⟨2, "Vanilla Cookies", "Baked", 4, 5⟩]

/-! ### Basic lemmas about lookup and save -/

theorem findById_cons (t : Sweet) (ts : List Sweet) (id : Nat) :
    findById (t :: ts) id = if t.id == id then some t else findById ts id := by
  cases h : t.id == id <;> simp [findById, List.find?_cons, h]

theorem saveById_cons (t : Sweet) (ts : List Sweet) (s : Sweet) :
    saveById (t :: ts) s = (if t.id == s.id then s else t) :: saveById ts s := by
  simp [saveById]

/-- Saving a document whose id was found puts exactly that document where
the lookup finds it. -/
theorem findById_saveById_self (store : List Sweet) (id : Nat) (s2 : Sweet)
    (hid : s2.id = id) (hex : findById store id ≠ none) :
    findById (saveById store s2) id = some s2 := by
  induction store with
  | nil => simp [findById] at hex
  | cons t ts ih =>
    by_cases h : t.id = id
    · simp [saveById_cons, findById_cons, h, hid]
    · simp only [findById_cons] at hex
      simp only [saveById_cons, findById_cons]
      have h1 : (t.id == s2.id) = false := by simp [hid, h]
      have h2 : (t.id == id) = false := by simp [h]
      rw [h2] at hex
      simp only [Bool.false_eq_true, if_false] at hex
      rw [h1]
      simp only [Bool.false_eq_true, if_false, findById_cons, h2]
      exact ih hex

/-- Saving a document with id `id` does not disturb lookups of any other
id. -/
theorem findById_saveById_other (store : List Sweet) (id : Nat) (s2 : Sweet)
    (hid : s2.id = id) (j : Nat) (hj : j ≠ id) :
    findById (saveById store s2) j = findById store j := by
  induction store with
  | nil => rfl
  | cons t ts ih =>
    have hj2 : id ≠ j := Ne.symm hj
    by_cases h : t.id = s2.id
    · have h2 : (s2.id == j) = false := by simp [hid]; omega
      have h3 : (t.id == j) = false := by simp [h, hid]; omega
      simp only [saveById_cons, findById_cons, h, beq_self_eq_true, if_true, h2, h3,
        Bool.false_eq_true, if_false]
      exact ih
    · have h1 : (t.id == s2.id) = false := by simp [h]
      simp only [saveById_cons, findById_cons, h1, Bool.false_eq_true, if_false]
      by_cases h4 : t.id = j
      · simp [h4]
      · have h5 : (t.id == j) = false := by simp [h4]
        simp only [h5, Bool.false_eq_true, if_false]
        exact ih

/-- A found document is a member of the collection and carries the looked-up
id. -/
theorem findById_some (store : List Sweet) (id : Nat) (s : Sweet)
    (h : findById store id = some s) : s ∈ store ∧ s.id = id := by
  refine ⟨List.mem_of_find?_eq_some h, ?_⟩
  have := List.find?_some h
  simpa using this

/-- Members of the collection after a save are the saved document or old
members. -/
theorem mem_saveById (store : List Sweet) (s2 t : Sweet)
    (h : t ∈ saveById store s2) : t = s2 ∨ t ∈ store := by
  rcases List.mem_map.mp h with ⟨u, hu, he⟩
  by_cases hid : u.id = s2.id
  · left
    simpa [hid] using he.symm
  · right
    have : (u.id == s2.id) = false := by simp [hid]
    rw [this] at he
    simp at he
    rwa [← he]

/-! ### Controller computation lemmas (shared) -/

theorem purchaseSweets_notFound (store : List Sweet) (id : Nat)
    (h : findById store id = none) :
    purchaseSweets store id = (.notFound, store) := by
  simp [purchaseSweets, h]

theorem purchaseSweets_outOfStock (store : List Sweet) (id : Nat) (s : Sweet)
    (hs : findById store id = some s) (hq : s.quantity < 1) :
    purchaseSweets store id = (.outOfStock, store) := by
  simp [purchaseSweets, hs, hq]

theorem purchaseSweets_found (store : List Sweet) (id : Nat) (s : Sweet)
    (hs : findById store id = some s) (hq : 1 ≤ s.quantity) :
    purchaseSweets store id =
      (.ok (s.quantity - 1), saveById store { s with quantity := s.quantity - 1 }) := by
  have hlt : ¬ s.quantity < 1 := by omega
  simp [purchaseSweets, hs, hlt]

theorem purchaseSweets_found_findById (store : List Sweet) (id : Nat) (s : Sweet)
    (hs : findById store id = some s) (hq : 1 ≤ s.quantity) :
    findById (purchaseSweets store id).2 id =
      some { s with quantity := s.quantity - 1 } := by
  rw [purchaseSweets_found store id s hs hq]
  exact findById_saveById_self store id _ ((findById_some store id s hs).2)
    (by rw [hs]; simp)

/-- C1: `purchase(id)` answers NotFound when the id resolves to no item,
OutOfStock when the item exists with quantity < 1, and otherwise decrements
the item's quantity by exactly 1 and returns the item's new quantity as
`currentStock`. -/
theorem purchaseSweets_spec (store : List Sweet) (id : Nat) :
    (findById store id = none → purchaseSweets store id = (.notFound, store)) ∧
    (∀ s, findById store id = some s → s.quantity < 1 →
        purchaseSweets store id = (.outOfStock, store)) ∧
    (∀ s, findById store id = some s → 1 ≤ s.quantity →
        (purchaseSweets store id).1 = .ok (s.quantity - 1) ∧
        findById (purchaseSweets store id).2 id =
          some { s with quantity := s.quantity - 1 }) := by
  refine ⟨purchaseSweets_notFound store id,
    fun s hs hq => purchaseSweets_outOfStock store id s hs hq,
    fun s hs hq => ⟨?_, purchaseSweets_found_findById store id s hs hq⟩⟩
  rw [purchaseSweets_found store id s hs hq]

/-- Witness for C1 at a concrete store: buying item 1 (stock 10) answers
stock 9 and stores quantity 9. -/
theorem purchaseSweets_spec_witness :
    (purchaseSweets demoStore 1).1 = .ok 9 ∧
    findById (purchaseSweets demoStore 1).2 1 =
      some ⟨1, "Fudge", "Choco", 5, 9⟩ := by
  have h := (purchaseSweets_spec demoStore 1).2.2 ⟨1, "Fudge", "Choco", 5, 10⟩
    (by rfl) (by norm_num)
  refine ⟨by rw [h.1]; decide, by rw [h.2]; decide⟩

/-- After `k ≤ N` purchases of an item that started at quantity `N`, the
item is still there with quantity `N - k`. -/
theorem purchaseIter_findById (store : List Sweet) (id : Nat) (s : Sweet)
    (N : Nat) (hs : findById store id = some s) (hq : s.quantity = N) :
    ∀ k, k ≤ N → findById (purchaseIter id store k) id =
      some { s with quantity := (N : Int) - k } := by
  intro k
  induction k with
  | zero =>
    intro _
    have h0 : ((N : Int) - (0 : Nat)) = s.quantity := by rw [hq]; simp
    show findById store id = some { s with quantity := (N : Int) - (0 : Nat) }
    rw [h0]
    exact hs
  | succ k ih =>
    intro hk
    have hfind := ih (by omega)
    have hq2 : ({ s with quantity := (N : Int) - k } : Sweet).quantity
        = (N : Int) - k := rfl
    have hpos : 1 ≤ ({ s with quantity := (N : Int) - k } : Sweet).quantity := by
      rw [hq2]; omega
    show findById (purchaseSweets (purchaseIter id store k) id).2 id = _
    rw [purchaseSweets_found_findById (purchaseIter id store k) id _ hfind hpos]
    congr 2
    rw [hq2]
    push_cast
    omega

/-- C3: an item whose quantity starts at N can be purchased exactly N
times, every call succeeding with the expected falling stock level; after
those N calls its quantity is 0, and the next purchase on the same item
answers OutOfStock. -/
theorem purchaseSweets_n_times (store : List Sweet) (id : Nat) (s : Sweet)
    (N : Nat) (hs : findById store id = some s) (hq : s.quantity = N) :
    (∀ k, k < N → (purchaseSweets (purchaseIter id store k) id).1 =
        .ok ((N : Int) - (k + 1))) ∧
    findById (purchaseIter id store N) id = some { s with quantity := 0 } ∧
    (purchaseSweets (purchaseIter id store N) id).1 = .outOfStock := by
  have hiter := purchaseIter_findById store id s N hs hq
  have hN := hiter N (le_refl N)
  have hN0 : ({ s with quantity := (N : Int) - N } : Sweet)
      = { s with quantity := 0 } := by simp
  refine ⟨?_, by rw [hN, hN0], ?_⟩
  · intro k hk
    have hfind := hiter k (by omega)
    have hpos : 1 ≤ ({ s with quantity := (N : Int) - k } : Sweet).quantity := by
      show (1 : Int) ≤ (N : Int) - k
      omega
    rw [purchaseSweets_found (purchaseIter id store k) id _ hfind hpos]
    show PurchaseRes.ok ((N : Int) - k - 1) = PurchaseRes.ok ((N : Int) - (k + 1))
    congr 1
    omega
  · have hlt : ({ s with quantity := (N : Int) - N } : Sweet).quantity < 1 := by
      show (N : Int) - N < 1
      omega
    rw [purchaseSweets_outOfStock (purchaseIter id store N) id _ hN hlt]

/-- Witness for C3 at a concrete store: after 10 purchases item 1 holds
quantity 0, the 11th purchase is OutOfStock, and the 4th purchase (index 3)
succeeded with stock 6. -/
theorem purchaseSweets_n_times_witness :
    findById (purchaseIter 1 demoStore 10) 1 = some ⟨1, "Fudge", "Choco", 5, 0⟩ ∧
    (purchaseSweets (purchaseIter 1 demoStore 10) 1).1 = .outOfStock ∧
    (purchaseSweets (purchaseIter 1 demoStore 3) 1).1 = .ok 6 := by
  have h := purchaseSweets_n_times demoStore 1 ⟨1, "Fudge", "Choco", 5, 10⟩ 10
    (by rfl) (by decide)
  refine ⟨by rw [h.2.1], h.2.2, ?_⟩
  have h3 := h.1 3 (by norm_num)
  rw [h3]
  decide

/-- C4: on an existing item, `restock(id, amount)` with a missing, zero or
negative amount answers InvalidAmount and leaves the whole store (hence the
item's quantity) unchanged; with a positive amount the item's quantity
becomes Q + amount, which is also the returned `currentStock`. -/
theorem restockSweets_spec (store : List Sweet) (id : Nat) (s : Sweet)
    (hs : findById store id = some s) (amount : Option Int) :
    (amount = none → restockSweets store id amount = (.invalidAmount, store)) ∧
    (∀ a, amount = some a → a ≤ 0 →
        restockSweets store id amount = (.invalidAmount, store)) ∧
    (∀ a, amount = some a → 0 < a →
        (restockSweets store id amount).1 = .ok (s.quantity + a) ∧
        findById (restockSweets store id amount).2 id =
          some { s with quantity := s.quantity + a }) := by
  refine ⟨?_, ?_, ?_⟩
  · intro h
    simp [restockSweets, h]
  · intro a ha hle
    simp [restockSweets, ha, hle]
  · intro a ha hpos
    have hgt : ¬ a ≤ 0 := by omega
    have hid : s.id = id := (findById_some store id s hs).2
    have hex : findById store id ≠ none := by rw [hs]; simp
    constructor
    · simp [restockSweets, ha, hgt, hs]
    · simp only [restockSweets, ha, hgt, if_false, hs]
      exact findById_saveById_self store id _ hid hex

/-- Witness for C4 at a concrete store: restocking item 2 (stock 0) by 5
answers stock 5 and stores quantity 5; amount 0 is rejected with the store
untouched. -/
theorem restockSweets_spec_witness :
    (restockSweets demoStore 2 (some 5)).1 = .ok 5 ∧
    findById (restockSweets demoStore 2 (some 5)).2 2 =
      some ⟨2, "Bar", "Choco", 3, 5⟩ ∧
    restockSweets demoStore 2 (some 0) = (.invalidAmount, demoStore) := by
  have h := restockSweets_spec demoStore 2 ⟨2, "Bar", "Choco", 3, 0⟩ (by rfl)
  have h1 := (h (some 5)).2.2 5 rfl (by norm_num)
  have h2 := (h (some 0)).2.1 0 rfl (by norm_num)
  refine ⟨by rw [h1.1]; decide, by rw [h1.2]; decide, h2⟩

/-- C9: `update(id, partialFields)` answers NotFound and leaves the store
unchanged when the id resolves to no item; otherwise exactly the fields
present in the body are changed on that item (absent fields and the id keep
their values), every other id's lookup is unchanged, and the returned record
is the item's post-update state. -/
theorem updateSweets_spec (store : List Sweet) (id : Nat) (p : SweetPatch) :
    (findById store id = none → updateSweets store id p = (.notFound, store)) ∧
    (∀ s, findById store id = some s →
        (updateSweets store id p).1 = .ok (applyPatch p s) ∧
        findById (updateSweets store id p).2 id = some (applyPatch p s) ∧
        (∀ j, j ≠ id →
          findById (updateSweets store id p).2 j = findById store j) ∧
        (applyPatch p s).id = s.id ∧
        (p.name = none → (applyPatch p s).name = s.name) ∧
        (∀ v, p.name = some v → (applyPatch p s).name = v) ∧
        (p.category = none → (applyPatch p s).category = s.category) ∧
        (∀ v, p.category = some v → (applyPatch p s).category = v) ∧
        (p.price = none → (applyPatch p s).price = s.price) ∧
        (∀ v, p.price = some v → (applyPatch p s).price = v) ∧
        (p.quantity = none → (applyPatch p s).quantity = s.quantity) ∧
        (∀ v, p.quantity = some v → (applyPatch p s).quantity = v)) := by
  refine ⟨?_, ?_⟩
  · intro h
    simp [updateSweets, h]
  · intro s hs
    have hid : s.id = id := (findById_some store id s hs).2
    have hid2 : (applyPatch p s).id = id := by simpa [applyPatch] using hid
    have hex : findById store id ≠ none := by rw [hs]; simp
    refine ⟨by simp [updateSweets, hs], ?_, ?_, ?_, ?_, ?_, ?_, ?_, ?_, ?_, ?_, ?_⟩
    · simp only [updateSweets, hs]
      exact findById_saveById_self store id _ hid2 hex
    · intro j hj
      simp only [updateSweets, hs]
      exact findById_saveById_other store id _ hid2 j hj
    · simp [applyPatch]
    · intro h; simp [applyPatch, h]
    · intro v h; simp [applyPatch, h]
    · intro h; simp [applyPatch, h]
    · intro v h; simp [applyPatch, h]
    · intro h; simp [applyPatch, h]
    · intro v h; simp [applyPatch, h]
    · intro h; simp [applyPatch, h]
    · intro v h; simp [applyPatch, h]

/-- Witness for C9 at a concrete store: updating only the price of item 1
keeps its name, category and quantity, changes its price, does not disturb
item 2, and returns the post-update record. -/
theorem updateSweets_spec_witness :
    (updateSweets demoStore 1 { price := some 7 }).1 =
      .ok ⟨1, "Fudge", "Choco", 7, 10⟩ ∧
    findById (updateSweets demoStore 1 { price := some 7 }).2 1 =
      some ⟨1, "Fudge", "Choco", 7, 10⟩ ∧
    findById (updateSweets demoStore 1 { price := some 7 }).2 2 =
      findById demoStore 2 := by
  have h := (updateSweets_spec demoStore 1 { price := some 7 }).2
    ⟨1, "Fudge", "Choco", 5, 10⟩ (by rfl)
  refine ⟨by rw [h.1]; decide, by rw [h.2.1]; decide, h.2.2.1 2 (by norm_num)⟩

theorem storeOK_addSweets (store : List Sweet) (b : SweetBody)
    (h : storeOK store) : storeOK (addSweets store b).2 := by
  rcases b with ⟨bn, bc, bp, bq⟩
  rcases bn with _ | n
  · simpa [addSweets] using h
  rcases bc with _ | c
  · simpa [addSweets] using h
  rcases bp with _ | p
  · simpa [addSweets] using h
  by_cases hp : p < 0
  · simpa [addSweets, hp] using h
  rcases bq with _ | q
  · simp only [addSweets, hp, if_false]
    intro s hs
    rcases List.mem_append.mp hs with h1 | h1
    · exact h s h1
    · rcases List.mem_singleton.mp h1 with rfl
      exact ⟨by norm_num, not_lt.mp hp⟩
  · by_cases hq : q < 0
    · simpa [addSweets, hp, hq] using h
    · simp only [addSweets, hp, hq, if_false]
      intro s hs
      rcases List.mem_append.mp hs with h1 | h1
      · exact h s h1
      · rcases List.mem_singleton.mp h1 with rfl
        exact ⟨not_lt.mp hq, not_lt.mp hp⟩

theorem storeOK_updateSweets (store : List Sweet) (id : Nat) (p : SweetPatch)
    (h : storeOK store)
    (hpr : ∀ v, p.price = some v → 0 ≤ v)
    (hqt : ∀ v, p.quantity = some v → 0 ≤ v) :
    storeOK (updateSweets store id p).2 := by
  cases hf : findById store id with
  | none => simpa [updateSweets, hf] using h
  | some s =>
    simp only [updateSweets, hf]
    intro t ht
    rcases mem_saveById store _ t ht with rfl | h1
    · have hsok := h s (findById_some store id s hf).1
      constructor
      · rcases hq2 : p.quantity with _ | v
        · simpa [applyPatch, hq2] using hsok.1
        · simpa [applyPatch, hq2] using hqt v hq2
      · rcases hp2 : p.price with _ | v
        · simpa [applyPatch, hp2] using hsok.2
        · simpa [applyPatch, hp2] using hpr v hp2
    · exact h t h1

theorem storeOK_removeSweets (store : List Sweet) (id : Nat)
    (h : storeOK store) : storeOK (removeSweets store id).2 := by
  cases hf : findById store id with
  | none => simpa [removeSweets, hf] using h
  | some s =>
    simp only [removeSweets, hf]
    intro t ht
    exact h t ((store.eraseP_sublist).mem ht)

theorem storeOK_purchaseSweets (store : List Sweet) (id : Nat)
    (h : storeOK store) : storeOK (purchaseSweets store id).2 := by
  cases hf : findById store id with
  | none => simpa [purchaseSweets, hf] using h
  | some s =>
    by_cases hq : s.quantity < 1
    · simpa [purchaseSweets, hf, hq] using h
    · simp only [purchaseSweets, hf, hq, if_false]
      intro t ht
      rcases mem_saveById store _ t ht with rfl | h1
      · have hsok := h s (findById_some store id s hf).1
        exact ⟨by simp; omega, hsok.2⟩
      · exact h t h1

theorem storeOK_restockSweets (store : List Sweet) (id : Nat)
    (amount : Option Int) (h : storeOK store) :
    storeOK (restockSweets store id amount).2 := by
  rcases amount with _ | a
  · simpa [restockSweets] using h
  by_cases ha : a ≤ 0
  · simpa [restockSweets, ha] using h
  cases hf : findById store id with
  | none => simpa [restockSweets, ha, hf] using h
  | some s =>
    simp only [restockSweets, ha, if_false, hf]
    intro t ht
    rcases mem_saveById store _ t ht with rfl | h1
    · have hsok := h s (findById_some store id s hf).1
      have := hsok.1
      exact ⟨by simp; omega, hsok.2⟩
    · exact h t h1

/-- C2: along any sequence of well-formed requests, every stored item keeps
a nonnegative quantity and a nonnegative price; in particular purchase and
restock never drive a quantity below 0. -/
theorem storeOK_preserved (store : List Sweet) (ops : List Op)
    (h0 : storeOK store) (hv : ∀ op ∈ ops, validOp op = true) :
    storeOK (ops.foldl applyOp store) := by
  induction ops generalizing store with
  | nil => exact h0
  | cons op ops ih =>
    have hop : validOp op = true := hv op (List.mem_cons_self op ops)
    have h1 : storeOK (applyOp store op) := by
      cases op with
      | add b => exact storeOK_addSweets store b h0
      | update id p =>
        refine storeOK_updateSweets store id p h0 ?_ ?_
        · intro v hvp
          rw [validOp, hvp] at hop
          rcases hq2 : p.quantity with _ | w <;> rw [hq2] at hop <;>
            simp at hop
          · exact hop
          · exact hop.1
        · intro v hvq
          rw [validOp, hvq] at hop
          rcases hp2 : p.price with _ | w <;> rw [hp2] at hop <;>
            simp at hop
          · exact hop
          · exact hop.2
      | remove id => exact storeOK_removeSweets store id h0
      | purchase id => exact storeOK_purchaseSweets store id h0
      | restock id a => exact storeOK_restockSweets store id a h0
    exact ih (applyOp store op) h1 (fun o ho => hv o (List.mem_cons_of_mem op ho))

/-- Witness for C2 at a concrete store and request sequence: a purchase, a
restock, an update, a removal and an add leave every quantity and price
nonnegative. -/
theorem storeOK_preserved_witness :
    storeOK (List.foldl applyOp demoStore
      [Op.purchase 1, Op.restock 2 (some 5),
       Op.update 1 { price := some 2 }, Op.remove 2,
       Op.add { name := some "Pie", category := some "Baked",
                price := some 4, quantity := some 3 }]) :=
  storeOK_preserved demoStore
    [Op.purchase 1, Op.restock 2 (some 5),
     Op.update 1 { price := some 2 }, Op.remove 2,
     Op.add { name := some "Pie", category := some "Baked",
              price := some 4, quantity := some 3 }]
    (by decide) (by decide)

/-! ### Auth middleware lemmas -/

theorem removeFirst_of_not_occurs (pat s : List Char)
    (h : occursIn pat s = false) : removeFirst pat s = s := by
  induction s with
  | nil => rfl
  | cons c cs ih =>
    rw [occursIn] at h
    rcases Bool.or_eq_false_iff.mp h with ⟨h1, h2⟩
    rw [removeFirst, h1]
    simp only [Bool.false_eq_true, if_false]
    rw [ih h2]

theorem removeFirst_append_left (pat rest : List Char) (hne : pat ≠ []) :
    removeFirst pat (pat ++ rest) = rest := by
  rcases pat with _ | ⟨a, l⟩
  · exact absurd rfl hne
  · rw [List.cons_append, removeFirst]
    have hpre : (a :: l).isPrefixOf (a :: (l ++ rest)) = true := by
      rw [ List.isPrefixOf_iff_prefix]
      exact ⟨rest, by simp⟩
    rw [hpre]
    simp only [if_true]
    show (a :: (l ++ rest)).drop (a :: l).length = rest
    simp only [List.length_cons, List.drop_succ_cons, List.drop_left]

/-- C5 counterexample, at a concrete request: a present token that fails
verification is answered with status 400, not the claimed 401. -/
theorem authenticate_invalid_counterexample :
    authFailStatus (authenticate (fun _ => none) (some "Bearer deadbeef")) =
      some 400 ∧
    authFailStatus (authenticate (fun _ => none) (some "Bearer deadbeef")) ≠
      some 401 := by
  constructor
  · rfl
  · decide

/-- C5 amended: the gate answers 401 only when no token is present (header
absent, or the extracted token empty); a present token that fails
signature/expiry verification is answered 400. -/
theorem authenticate_status_amended (verify : String → Option Identity)
    (h : String) (hne : stripBearer h ≠ "")
    (hinv : verify (stripBearer h) = none) :
    authFailStatus (authenticate verify (some h)) = some 400 ∧
    authFailStatus (authenticate verify none) = some 401 := by
  refine ⟨?_, rfl⟩
  simp [authenticate, authFailStatus, hne, hinv]

/-- Witness for amended C5 at a concrete request: the token of header
"Bearer x" under a verifier rejecting everything gets 400; a missing header
gets 401. -/
theorem authenticate_status_amended_witness :
    authFailStatus (authenticate (fun _ => none) (some "Bearer x")) =
      some 400 ∧
    authFailStatus (authenticate (fun _ => none) none) = some 401 :=
  authenticate_status_amended (fun _ => none) "Bearer x" (by decide) rfl

/-- C10: as long as the string "Bearer " does not occur inside the token —
and no real signed token contains a space — a request carrying the bare
token in its authorization header authenticates exactly like one carrying
the Bearer-prefixed form: the middleware strips the prefix when present and
verifies what remains, so the prefix is optional at the interface. -/
theorem authenticate_bearer_optional (verify : String → Option Identity)
    (t : String) (hocc : occursIn "Bearer ".data t.data = false) :
    authenticate verify (some ("Bearer " ++ t)) =
      authenticate verify (some t) := by
  have h1 : stripBearer ("Bearer " ++ t) = t := by
    show (⟨removeFirst "Bearer ".data ("Bearer " ++ t).data⟩ : String) = t
    rw [show ("Bearer " ++ t).data = "Bearer ".data ++ t.data from rfl]
    rw [removeFirst_append_left "Bearer ".data t.data (by decide)]
  have h2 : stripBearer t = t := by
    show (⟨removeFirst "Bearer ".data t.data⟩ : String) = t
    rw [removeFirst_of_not_occurs "Bearer ".data t.data hocc]
  simp only [authenticate, h1, h2]

/-- Witness for C10 at a concrete verifier and token: both header forms
authenticate identically. -/
theorem authenticate_bearer_optional_witness :
    authenticate (fun s => if s = "tok" then some ⟨1, "user"⟩ else none)
        (some ("Bearer " ++ "tok")) =
      authenticate (fun s => if s = "tok" then some ⟨1, "user"⟩ else none)
        (some "tok") :=
  authenticate_bearer_optional _ "tok" (by decide)

/-! ### Register -/

/-- C8: registering an email that already exists in the credential store
answers Conflict and persists nothing: the store is returned unchanged. -/
theorem register_conflict (hash : String → String) (users : List User)
    (username email password : String) (role : Option String)
    (hex : ∃ u ∈ users, u.email = email) :
    register hash users username email password role = (.conflict, users) := by
  obtain ⟨u, hu, he⟩ := hex
  have hsome : (users.find? (fun v => v.email == email)).isSome :=
    List.find?_isSome.mpr ⟨u, hu, by simp [he]⟩
  rcases hfind : users.find? (fun v => v.email == email) with _ | v
  · rw [hfind] at hsome
    simp at hsome
  · simp [register, hfind]

/-- Witness for C8 at a concrete store: registering the existing email
answers conflict with the user list untouched. -/
theorem register_conflict_witness :
    register (fun s => s) demoUsers "bob" "a@x.com" "pw" none =
      (.conflict, demoUsers) :=
  register_conflict (fun s => s) demoUsers "bob" "a@x.com" "pw" none
    ⟨⟨"alice", "a@x.com", "h1", "admin"⟩, by decide, rfl⟩

/-! ### Router: the admin gate -/

/-- C7: an authenticated identity whose role is not "admin" is answered 403
with the store untouched on every route wired through `isAdmin` — add,
update, remove and restock — while list, search and purchase carry no admin
check: the router runs their controller whatever the role. -/
theorem requireAdmin_gate (verify : String → Option Identity)
    (header : Option String) (u : Identity) (store : List Sweet)
    (hauth : authenticate verify header = .ok u) (hrole : u.role ≠ "admin") :
    (∀ route, routeRequiresAdmin route = true →
        handleRequest verify header route store = (403, store)) ∧
    (∀ route, routeRequiresAdmin route = false →
        handleRequest verify header route store = dispatch route store) ∧
    (∀ b, routeRequiresAdmin (.add b) = true) ∧
    (∀ id p, routeRequiresAdmin (.update id p) = true) ∧
    (∀ id, routeRequiresAdmin (.remove id) = true) ∧
    (∀ id a, routeRequiresAdmin (.restock id a) = true) ∧
    routeRequiresAdmin .list = false ∧
    (∀ q, routeRequiresAdmin (.search q) = false) ∧
    (∀ id, routeRequiresAdmin (.purchase id) = false) := by
  have hadm : isAdminCheck u = false := by
    simp [isAdminCheck, hrole]
  refine ⟨?_, ?_, fun b => rfl, fun id p => rfl, fun id => rfl,
    fun id a => rfl, rfl, fun q => rfl, fun id => rfl⟩
  · intro route hr
    simp [handleRequest, hauth, hr, hadm]
  · intro route hr
    simp [handleRequest, hauth, hr]

/-- Witness for C7 at a concrete request: a non-admin identity gets 403
from the delete route with the store untouched, and the purchase route runs
its controller. -/
theorem requireAdmin_gate_witness :
    handleRequest (fun s => if s = "u" then some ⟨1, "user"⟩ else none)
        (some "Bearer u") (.remove 1) demoStore = (403, demoStore) ∧
    handleRequest (fun s => if s = "u" then some ⟨1, "user"⟩ else none)
        (some "Bearer u") (.purchase 1) demoStore =
      dispatch (.purchase 1) demoStore := by
  have h := requireAdmin_gate (fun s => if s = "u" then some ⟨1, "user"⟩ else none)
    (some "Bearer u") ⟨1, "user"⟩ demoStore (by decide) (by decide)
  exact ⟨h.1 (.remove 1) rfl, h.2.1 (.purchase 1) rfl⟩

/-! ### Search lemmas -/

theorem parsePattern_no_dot (p : List Char) (h : ∀ c ∈ p, c ≠ '.') :
    parsePattern p = p.map RTok.lit := by
  induction p with
  | nil => rfl
  | cons c cs ih =>
    have hc : c ≠ '.' := h c (List.mem_cons_self c cs)
    show (if c = '.' then RTok.dot else RTok.lit c) :: parsePattern cs = _
    rw [if_neg hc, List.map_cons]
    rw [ih (fun d hd => h d (List.mem_cons_of_mem c hd))]

theorem matchHere_lit (p : List Char) :
    ∀ s, matchHere (p.map RTok.lit) s = isPrefixCI p s := by
  induction p with
  | nil => intro s; cases s <;> rfl
  | cons c cs ih =>
    intro s
    cases s with
    | nil => rfl
    | cons d ds =>
      show (tokMatch (RTok.lit c) d && matchHere (cs.map RTok.lit) ds) = _
      rw [ih ds]
      rfl

theorem regexSearch_lit (p s : List Char) :
    regexSearch (p.map RTok.lit) s = containsCI p s := by
  induction s with
  | nil =>
    show matchHere (p.map RTok.lit) [] = p.isEmpty
    cases p <;> rfl
  | cons c cs ih =>
    show (matchHere (p.map RTok.lit) (c :: cs) || regexSearch (p.map RTok.lit) cs)
      = _
    rw [matchHere_lit p, ih]
    rfl

/-- The Bool-valued substring test means exactly what the spec says:
the lowercased needle is an infix of the lowercased haystack. -/
theorem isPrefixCI_iff (p : List Char) :
    ∀ s, isPrefixCI p s = true ↔ p.map Char.toLower <+: s.map Char.toLower := by
  induction p with
  | nil => intro s; simp [isPrefixCI]
  | cons c cs ih =>
    intro s
    cases s with
    | nil => simp [isPrefixCI]
    | cons d ds =>
      show ((c.toLower == d.toLower) && isPrefixCI cs ds) = true ↔ _
      rw [Bool.and_eq_true, ih ds, List.map_cons, List.map_cons,
        List.cons_prefix_cons]
      simp

theorem containsCI_iff (p s : List Char) :
    containsCI p s = true ↔ p.map Char.toLower <:+: s.map Char.toLower := by
  induction s with
  | nil =>
    show p.isEmpty = true ↔ _
    simp [List.isEmpty_iff, List.infix_nil, List.map_eq_nil_iff]
  | cons c cs ih =>
    show (isPrefixCI p (c :: cs) || containsCI p cs) = true ↔ _
    rw [Bool.or_eq_true, isPrefixCI_iff p, ih, List.map_cons]
    exact (List.infix_cons_iff).symm

theorem containsCI_nil_pat (s : List Char) : containsCI [] s = true := by
  cases s with
  | nil => rfl
  | cons c cs => show (isPrefixCI [] (c :: cs) || containsCI [] cs) = true; rfl

/-- C6 counterexample, at a concrete store and name argument: the search
interprets the name "a.c" as a regular expression, so it returns the item
named "abc" even though "a.c" is not a case-insensitive literal substring
of "abc". -/
theorem searchSweets_regex_counterexample :
    searchSweets [⟨1, "abc", "cat", 1, 1⟩] ⟨some "a.c", none, none, none⟩ =
      [⟨1, "abc", "cat", 1, 1⟩] ∧
    containsCI "a.c".data "abc".data = false := by
  constructor
  · rfl
  · rfl

/-- C6 amended: the search name argument is a case-insensitive
regular-expression pattern, not a literal; restricted to name arguments
containing no regex metacharacter the filter coincides exactly with
case-insensitive literal substring matching on the item names. -/
theorem searchSweets_name_spec (store : List Sweet) (n : String)
    (h : ∀ c ∈ n.data, c ∉ regexSpecials) :
    searchSweets store ⟨some n, none, none, none⟩ =
      store.filter (fun s => containsCI n.data s.name.data) := by
  unfold searchSweets
  apply List.filter_congr
  intro s _
  show matchesQuery ⟨some n, none, none, none⟩ s = _
  by_cases hn : n = ""
  · subst hn
    simp [matchesQuery, containsCI_nil_pat]
  · have hdot : ∀ c ∈ n.data, c ≠ '.' := by
      intro c hc hceq
      exact h c hc (hceq ▸ (by decide : ('.' : Char) ∈ regexSpecials))
    simp only [matchesQuery, if_neg hn]
    rw [parsePattern_no_dot n.data hdot, regexSearch_lit]
    simp

/-- Witness for amended C6 at a concrete store: the name "cho" (free of
metacharacters) selects exactly the items whose names contain it
case-insensitively. -/
theorem searchSweets_name_spec_witness :
    searchSweets demoSearchStore ⟨some "cho", none, none, none⟩ =
      demoSearchStore.filter (fun s => containsCI "cho".data s.name.data) :=
  searchSweets_name_spec demoSearchStore "cho" (by decide)

end Kada
